import Mathlib

/-!
Verification of the MeasureBowl Play-Console probe scripts.

Each Python script is embedded as a pure Lean function over an explicit
oracle that supplies the outcome of every remote API call.  A run produces

  * the list of lines printed to standard output,
  * the trace of remote calls issued (probe calls and commit calls), and
  * an `Except PyErr` result: `.error e` models a Python exception `e`
    escaping the function, `.ok v` models a normal return of `v`.

Python `try/except` blocks are embedded through `clauseFind`, which
dispatches a raised exception to the first `except` clause whose matcher
accepts it and yields `none` (propagation) when no clause matches, exactly
mirroring Python's handler search.
-/

/-- A Python exception raised by a remote call: an `HttpError` carrying the
HTTP status, or any other exception.  The `msg` field stands for the string
rendering `str(e)` of the exception object. -/
inductive PyErr where
  | httpError (status : Nat) (msg : String)
  | exn (msg : String)
deriving DecidableEq

deriving instance DecidableEq for Except

/-- The string rendering of an exception, as interpolated by the scripts
into their printed diagnostics. -/
def errStr : PyErr → String
  | .httpError _ m => m
  | .exn m => m

/-- An observable remote API call issued by a script: a probe call named by
its method, or an edit-commit call carrying the committed edit id. -/
inductive Event where
  | call (pkg : String) (method : String)
  | commit (pkg : String) (editId : String)
deriving DecidableEq

/-- The observable behaviour of one script run: printed output, the trace of
remote calls, and the script's result (or an escaped exception). -/
structure Run (ρ : Type) where
  output : List String
  events : List Event
  result : Except PyErr ρ
deriving DecidableEq

/-- Python handler search: the first `except` clause whose matcher accepts
the exception handles it; `none` means the exception propagates. -/
def clauseFind {β : Type} (cs : List ((PyErr → Bool) × (PyErr → β))) (e : PyErr) : Option β :=
  match cs with
  | [] => none
  | c :: rest => if c.1 e then some (c.2 e) else clauseFind rest e

/-- Matcher of an `except HttpError` clause. -/
def isHttpErr : PyErr → Bool
  | .httpError _ _ => true
  | .exn _ => false

/-- Matcher of an `except Exception` clause (catches every modelled error). -/
def isAnyExc : PyErr → Bool := fun _ => true

/-- A server-side release edit, as returned by `edits().insert()` or listed
by `edits().list()`; the scripts read only its `id` field. -/
structure Edit where
  id : String
deriving DecidableEq

/-- The single-quote character, used by Python `repr` and in several
printed messages. -/
def sQuote : String := "\x27"

def commaSep : String := ", "

/-- Python `repr` of a list of strings, as printed by
`print(f"...{found_packages}")`. -/
def pyStrListRepr (l : List String) : String :=
  "[" ++ String.intercalate commaSep (l.map (fun s => sQuote ++ s ++ sQuote)) ++ "]"

def mEditsList : String := "edits().list()"

def mEditsInsert : String := "edits().insert()"

def mReviewsList : String := "reviews().list()"

def mEditsGet : String := "edits().get()"

/-! ## find_package.py -/

/-- Oracle for `find_package.py`: outcome of probing a package with one of
the three methods; on success the payload is the JSON dump of the response. -/
def FindOracle : Type := String → String → Except PyErr String

/-- The three probe methods tried per candidate in `find_package.py`, in
source order. -/
def find_methods : List String := [mEditsList, mEditsInsert, mReviewsList]

/-- The hard-coded candidate list `package_patterns` of `find_package.py`. -/
def package_patterns : List String :=
  ["com.example.measurebowl", "com.dojo.measurebowl", "com.measurebowl.app",
   "com.measurebowl", "com.lawnbowls.measurebowl", "com.julian.measurebowl",
   "com.gilbertroberts.measurebowl", "com.kickybreaks.measurebowl"]

/-- Body of the `except HttpError` clause of the inner method loop. -/
def findHttpHandler (m : String) : PyErr → List String
  | .httpError s msg =>
      if s = 404 then ["  ❌ " ++ m ++ ": Package not found"]
      else ["  ⚠️  " ++ m ++ ": " ++ msg]
  | .exn msg => ["  ⚠️  " ++ m ++ ": " ++ msg]

/-- The two `except` clauses of the inner method loop of `find_package.py`. -/
def findClauses (m : String) : List ((PyErr → Bool) × (PyErr → List String)) :=
  [(isHttpErr, findHttpHandler m),
   (isAnyExc, fun e => ["  ⚠️  " ++ m ++ ": " ++ errStr e])]

/-- The inner method loop of `find_package.py` for one candidate: try each
method in turn, stop (`break`) on the first success; handled errors advance
to the next method. -/
def findMethodLoop (o : FindOracle) (pkg : String) : List String → Run Bool
  | [] => ⟨[], [], .ok false⟩
  | m :: ms =>
    match o pkg m with
    | .ok res =>
        ⟨["  ✅ " ++ m ++ " succeeded!", "  Result: " ++ res.take 200 ++ "..."],
         [.call pkg m], .ok true⟩
    | .error e =>
      match clauseFind (findClauses m) e with
      | some hls =>
          let r := findMethodLoop o pkg ms
          ⟨hls ++ r.output, Event.call pkg m :: r.events, r.result⟩
      | none => ⟨[], [.call pkg m], .error e⟩

/-- The outer candidate loop of `find_package.py`, accumulating
`found_packages` in order. -/
def findPkgLoop (o : FindOracle) : List String → Run (List String)
  | [] => ⟨[], [], .ok []⟩
  | pkg :: rest =>
    let r := findMethodLoop o pkg find_methods
    match r.result with
    | .error e => ⟨("\nTesting package: " ++ pkg) :: r.output, r.events, .error e⟩
    | .ok b =>
      let rr := findPkgLoop o rest
      ⟨("\nTesting package: " ++ pkg) :: r.output ++ rr.output, r.events ++ rr.events,
       match rr.result with
       | .error e => .error e
       | .ok found => .ok (if b then pkg :: found else found)⟩

/-- `list_available_apps` of `find_package.py`.  `saEmail` is the service
account email read from the credentials file and echoed in the header. -/
def list_available_apps (saEmail : String) (o : FindOracle) : Run (Option String) :=
  let hdr := ["Service account: " ++ saEmail,
              "Testing different approaches to find apps..."]
  let r := findPkgLoop o package_patterns
  match r.result with
  | .error e => ⟨hdr ++ r.output, r.events, .error e⟩
  | .ok found =>
    match found with
    | f :: _ =>
        ⟨hdr ++ r.output ++ ["\n🎉 Found accessible packages: " ++ pyStrListRepr found],
         r.events, .ok (some f)⟩
    | [] => ⟨hdr ++ r.output ++ ["\n❌ No accessible packages found"], r.events, .ok none⟩

/-! ## test_package.py -/

/-- Oracle for `test_package.py`: outcome of `edits().insert()` per package. -/
def TestOracle : Type := String → Except PyErr Edit

/-- The hard-coded candidate list `package_variations` of `test_package.py`. -/
def package_variations : List String :=
  ["com.measurebowl.app", "com.measurebowl", "com.dojo.measurebowl",
   "com.julian.measurebowl", "com.gilbertroberts.measurebowl",
   "com.kickybreaks.measurebowl", "com.dojo.lawnbowls",
   "com.measurebowl.lawnbowls", "com.lawnbowls.measurebowl"]

/-- Body of the `except HttpError` clause of `test_package.py`. -/
def testHttpHandler (pkg : String) : PyErr → List String
  | .httpError s msg =>
      if s = 404 then ["❌ Package " ++ pkg ++ " not found"]
      else ["⚠️  Error testing " ++ pkg ++ ": " ++ msg]
  | .exn msg => ["⚠️  Error testing " ++ pkg ++ ": " ++ msg]

/-- The two `except` clauses of the loop of `test_package.py`. -/
def testClauses (pkg : String) : List ((PyErr → Bool) × (PyErr → List String)) :=
  [(isHttpErr, testHttpHandler pkg),
   (isAnyExc, fun e => ["⚠️  Error testing " ++ pkg ++ ": " ++ errStr e])]

/-- The candidate loop of `test_package.py`: return the first package whose
`edits().insert()` succeeds; handled errors advance to the next candidate. -/
def testLoop (o : TestOracle) : List String → Run (Option String)
  | [] =>
      ⟨["\n❌ None of the common variations were found.",
        "You" ++ sQuote ++ "ll need to check the exact package name in Google Play Console."],
       [], .ok none⟩
  | pkg :: rest =>
    match o pkg with
    | .ok ed =>
        ⟨["✅ FOUND: Package " ++ pkg ++ " exists!", "Edit ID: " ++ ed.id],
         [.call pkg mEditsInsert], .ok (some pkg)⟩
    | .error e =>
      match clauseFind (testClauses pkg) e with
      | some hls =>
          let r := testLoop o rest
          ⟨hls ++ r.output, Event.call pkg mEditsInsert :: r.events, r.result⟩
      | none => ⟨[], [.call pkg mEditsInsert], .error e⟩

/-- `test_package_variations` of `test_package.py`. -/
def test_package_variations (o : TestOracle) : Run (Option String) :=
  let r := testLoop o package_variations
  ⟨"Testing common package name variations..." :: r.output, r.events, r.result⟩

/-! ## test_example_package.py -/

def examplePkg : String := "com.example.measurebowl"

/-- Body of the `except HttpError` clause of `test_example_package.py`;
the second component is the returned boolean. -/
def exampleHttpHandler : PyErr → List String × Bool
  | .httpError s msg =>
      if s = 404 then
        (["ERROR: Package com.example.measurebowl not found",
          "This means either:",
          "1. The app wasn" ++ sQuote ++ "t created with this package name",
          "2. The service account doesn" ++ sQuote ++ "t have access to this app"], false)
      else (["ERROR: " ++ msg], false)
  | .exn msg => (["ERROR: " ++ msg], false)

/-- The two `except` clauses of `test_example_package.py`. -/
def exampleClauses : List ((PyErr → Bool) × (PyErr → List String × Bool)) :=
  [(isHttpErr, exampleHttpHandler),
   (isAnyExc, fun e => (["ERROR: " ++ errStr e], false))]

/-- `test_example_package` of `test_example_package.py`: a single
`edits().insert()` probe of the single hard-coded package. -/
def test_example_package (o : Except PyErr Edit) : Run Bool :=
  let hdr := "Testing access to package: " ++ examplePkg
  match o with
  | .ok ed =>
      ⟨[hdr, "SUCCESS: Package com.example.measurebowl exists!", "Edit ID: " ++ ed.id],
       [.call examplePkg mEditsInsert], .ok true⟩
  | .error e =>
    match clauseFind exampleClauses e with
    | some hb => ⟨hdr :: hb.1, [.call examplePkg mEditsInsert], .ok hb.2⟩
    | none => ⟨[hdr], [.call examplePkg mEditsInsert], .error e⟩

/-! ## publish_release.py -/

/-- Oracle for `publish_release.py`: `listResp pkg` is the outcome of
`edits().list()` — on success `none` when the response has no `edits` key,
otherwise the (possibly empty) edits collection; `commitResp pkg editId` is
the outcome of `edits().commit()`, its payload the printed response. -/
structure PubOracle where
  listResp : String → Except PyErr (Option (List Edit))
  commitResp : String → String → Except PyErr String

/-- The hard-coded candidate list `package_names` of `publish_release.py`. -/
def package_names : List String :=
  ["com.example.measurebowl", "com.dojo.measurebowl", "com.measurebowl.app",
   "com.measurebowl", "com.lawnbowls.measurebowl"]

/-- Body of the `except HttpError` clause of `publish_release.py`. -/
def pubHttpHandler (pkg : String) : PyErr → List String
  | .httpError s msg =>
      if s = 404 then ["Package " ++ pkg ++ " not found"]
      else ["Error with " ++ pkg ++ ": " ++ msg]
  | .exn msg => ["Error with " ++ pkg ++ ": " ++ msg]

/-- The two `except` clauses of the loop of `publish_release.py`. -/
def pubClauses (pkg : String) : List ((PyErr → Bool) × (PyErr → List String)) :=
  [(isHttpErr, pubHttpHandler pkg),
   (isAnyExc, fun e => ["Error with " ++ pkg ++ ": " ++ errStr e])]

/-- The `try` body of one loop iteration of `publish_release.py`: list the
pending edits and, when the response holds a non-empty edits collection,
commit the first edit; result `true` means `return True` was reached. -/
def pubTryBody (o : PubOracle) (pkg : String) : Run Bool :=
  match o.listResp pkg with
  | .error e => ⟨[], [.call pkg mEditsList], .error e⟩
  | .ok payload =>
    match payload with
    | some (ed :: _) =>
      let l1 := ["Found existing edits for " ++ pkg, "Latest edit ID: " ++ ed.id]
      match o.commitResp pkg ed.id with
      | .error e => ⟨l1, [.call pkg mEditsList, .commit pkg ed.id], .error e⟩
      | .ok cr =>
          ⟨l1 ++ ["✅ SUCCESS! Published release for " ++ pkg, "Commit response: " ++ cr],
           [.call pkg mEditsList, .commit pkg ed.id], .ok true⟩
    | _ => ⟨["No existing edits found for " ++ pkg], [.call pkg mEditsList], .ok false⟩

/-- One loop iteration of `publish_release.py`, with its `except` clauses. -/
def pubStep (o : PubOracle) (pkg : String) : Run Bool :=
  let r := pubTryBody o pkg
  match r.result with
  | .ok b => ⟨("\nTrying package: " ++ pkg) :: r.output, r.events, .ok b⟩
  | .error e =>
    match clauseFind (pubClauses pkg) e with
    | some hls => ⟨("\nTrying package: " ++ pkg) :: r.output ++ hls, r.events, .ok false⟩
    | none => ⟨("\nTrying package: " ++ pkg) :: r.output, r.events, .error e⟩

/-- The candidate loop of `publish_release.py`: stop with `True` on the
first successful commit, otherwise fall through to the failure message. -/
def pubLoop (o : PubOracle) : List String → Run Bool
  | [] => ⟨["\n❌ No existing releases found to publish"], [], .ok false⟩
  | pkg :: rest =>
    let r := pubStep o pkg
    match r.result with
    | .ok true => r
    | .ok false =>
      let rr := pubLoop o rest
      ⟨r.output ++ rr.output, r.events ++ rr.events, rr.result⟩
    | .error e => ⟨r.output, r.events, .error e⟩

/-- `publish_existing_release` of `publish_release.py`. -/
def publish_existing_release (o : PubOracle) : Run Bool :=
  pubLoop o package_names

/-! ## add_service_account.py -/

def credentials_path : String := "../../fastlane/play-console-credentials.json"

def sa_email : String := "play-console-uploader@dojo-pool.iam.gserviceaccount.com"

def dojo_package : String := "com.dojo.measurebowl"

/-- The remediation text printed on a 403, verbatim from
`add_service_account.py`. -/
def remediationLines : List String :=
  ["❌ Service account doesn" ++ sQuote ++ "t have access to this app.",
   "\nTo fix this:",
   "1. Go to https://play.google.com/console/",
   "2. Navigate to Setup > API access",
   "3. Find " ++ sQuote ++ "Service accounts" ++ sQuote ++ " section",
   "4. Click " ++ sQuote ++ "Link service account" ++ sQuote,
   "5. Enter: " ++ sa_email,
   "6. Grant permissions:",
   "   - ✅ Release apps to testing tracks",
   "   - ✅ View app information and download bulk reports",
   "7. Click " ++ sQuote ++ "Invite user" ++ sQuote]

/-- Body of the inner `except HttpError` clause of `add_service_account.py`. -/
def addHttpHandler : PyErr → List String
  | .httpError s msg =>
      if s = 404 then
        ["❌ App with package name " ++ sQuote ++ dojo_package ++ sQuote ++ " not found.",
         "Please verify the package name matches what you created in Google Play Console."]
      else if s = 403 then remediationLines
      else ["❌ Error: " ++ msg]
  | .exn msg => ["❌ Error: " ++ msg]

/-- The single inner `except HttpError` clause of `add_service_account.py`. -/
def addInnerClauses : List ((PyErr → Bool) × (PyErr → List String)) :=
  [(isHttpErr, addHttpHandler)]

/-- The outer `except Exception` clause of `add_service_account.py`. -/
def addOuterClauses : List ((PyErr → Bool) × (PyErr → List String)) :=
  [(isAnyExc, fun e => ["Unexpected error: " ++ errStr e])]

/-- `add_service_account_to_play_console` of `add_service_account.py`.
`credsExist` is whether the credentials file exists at the hard-coded path;
`o` is the outcome of the single `edits().get()` access probe. -/
def add_service_account_to_play_console (credsExist : Bool) (o : Except PyErr String) : Run Bool :=
  if credsExist = false then
    ⟨["Error: Credentials file not found at " ++ credentials_path], [], .ok false⟩
  else
    let hdr := ["Attempting to add service account: " ++ sa_email,
                "To package: " ++ dojo_package,
                "\nTesting service account access..."]
    match o with
    | .ok _ =>
        ⟨hdr ++ ["✅ Service account has access to the app!"],
         [.call dojo_package mEditsGet], .ok true⟩
    | .error e =>
      match clauseFind addInnerClauses e with
      | some hls => ⟨hdr ++ hls, [.call dojo_package mEditsGet], .ok false⟩
      | none =>
        match clauseFind addOuterClauses e with
        | some hls => ⟨hdr ++ hls, [.call dojo_package mEditsGet], .ok false⟩
        | none => ⟨hdr, [.call dojo_package mEditsGet], .error e⟩

/-! ## Derived notions and concrete oracles used in the verification -/

/-- A NotFound response: an `HttpError` with status 404. -/
def isNotFound404 {α : Type} (r : Except PyErr α) : Prop :=
  ∃ msg, r = .error (.httpError 404 msg)

/-- The methods of `find_package.py` actually tried for a candidate: every
method up to and including the first successful one. -/
def triedMethods (o : FindOracle) (pkg : String) : List String → List String
  | [] => []
  | m :: ms =>
    match o pkg m with
    | .ok _ => [m]
    | .error _ => m :: triedMethods o pkg ms

/-- The probe trace of `find_package.py` laid out candidate by candidate, in
the literal order of the candidate list. -/
def eventsOfBlocks (o : FindOracle) : List String → List Event
  | [] => []
  | p :: ps => (triedMethods o p find_methods).map (Event.call p) ++ eventsOfBlocks o ps

/-- Whether an event is a commit call for the given package. -/
def isCommitFor (pkg : String) : Event → Bool
  | .commit q _ => q == pkg
  | .call _ _ => false

/-- Number of remote calls issued strictly after the first commit call of a
trace (0 when there is no commit call). -/
def eventsAfterFirstCommit : List Event → Nat
  | [] => 0
  | .commit _ _ :: rest => rest.length
  | .call _ _ :: rest => eventsAfterFirstCommit rest

/-- Oracle where the first candidate has one pending edit whose commit
succeeds. -/
def pubOracleC1 : PubOracle where
  listResp := fun pkg =>
    if pkg = "com.example.measurebowl" then .ok (some [⟨"edit-1"⟩]) else .ok none
  commitResp := fun _ _ => .ok "committed"

/-- Oracle where the first candidate has one pending edit whose commit
fails with a server error; all other candidates have no edits. -/
def pubOracleC6 : PubOracle where
  listResp := fun pkg =>
    if pkg = "com.example.measurebowl" then .ok (some [⟨"edit-1"⟩]) else .ok none
  commitResp := fun _ _ => .error (.httpError 500 "backendError")

/-- Oracle where the first candidate's first probe method returns 403 and
every other probe returns 404. -/
def findOracleC3 : FindOracle := fun pkg m =>
  if pkg = "com.example.measurebowl" ∧ m = mEditsList then .error (.httpError 403 "forbidden")
  else .error (.httpError 404 "notFound")

/-- Oracle for the C2 witness: only `com.measurebowl` answers successfully. -/
def testOracleC2 : TestOracle := fun q =>
  if q = "com.measurebowl" then .ok ⟨"edit-7"⟩ else .error (.httpError 404 "nf")

/-- Oracle for the C2 witness: only the first candidate's first method
succeeds. -/
def findOracleC2 : FindOracle := fun pkg m =>
  if pkg = "com.example.measurebowl" ∧ m = mEditsList then .ok "resp"
  else .error (.httpError 404 "nf")

/-- All-NotFound oracle over single-call probes. -/
def testOracle404 : TestOracle := fun _ => .error (.httpError 404 "nf")

/-- All-NotFound oracle over the three-method probe. -/
def findOracle404 : FindOracle := fun _ _ => .error (.httpError 404 "nf")

/-- All-NotFound publish oracle. -/
def pubOracle404 : PubOracle where
  listResp := fun _ => .error (.httpError 404 "nf")
  commitResp := fun _ _ => .error (.httpError 404 "nf")

/-- Oracle identical to `findOracle404` on every candidate of
`package_patterns` but different on an unrelated package name. -/
def findOracleC9 : FindOracle := fun pkg m =>
  if pkg = "com.unrelated.app" then .ok "resp" else findOracle404 pkg m

/-! ## Handler dispatch lemmas -/

theorem clauseFind_findClauses (m : String) (e : PyErr) :
    clauseFind (findClauses m) e = some (findHttpHandler m e) := by
  cases e <;> simp [clauseFind, findClauses, isHttpErr, isAnyExc, findHttpHandler, errStr]

theorem clauseFind_testClauses (pkg : String) (e : PyErr) :
    clauseFind (testClauses pkg) e = some (testHttpHandler pkg e) := by
  cases e <;> simp [clauseFind, testClauses, isHttpErr, isAnyExc, testHttpHandler, errStr]

theorem clauseFind_pubClauses (pkg : String) (e : PyErr) :
    clauseFind (pubClauses pkg) e = some (pubHttpHandler pkg e) := by
  cases e <;> simp [clauseFind, pubClauses, isHttpErr, isAnyExc, pubHttpHandler, errStr]

theorem clauseFind_exampleClauses (e : PyErr) :
    clauseFind exampleClauses e = some (exampleHttpHandler e) := by
  cases e <;> simp [clauseFind, exampleClauses, isHttpErr, isAnyExc, exampleHttpHandler, errStr]

theorem clauseFind_addInner_http (s : Nat) (msg : String) :
    clauseFind addInnerClauses (.httpError s msg) = some (addHttpHandler (.httpError s msg)) := by
  simp [clauseFind, addInnerClauses, isHttpErr]

theorem clauseFind_addInner_exn (msg : String) :
    clauseFind addInnerClauses (.exn msg) = none := by
  simp [clauseFind, addInnerClauses, isHttpErr]

theorem clauseFind_addOuter (e : PyErr) :
    clauseFind addOuterClauses e = some ["Unexpected error: " ++ errStr e] := by
  simp [clauseFind, addOuterClauses, isAnyExc]

/-! ## Normal-return lemmas -/

theorem findMethodLoop_isOk (o : FindOracle) (pkg : String) (ms : List String) :
    ∃ b, (findMethodLoop o pkg ms).result = .ok b := by
  induction ms with
  | nil => exact ⟨false, rfl⟩
  | cons m ms ih =>
    cases h : o pkg m with
    | ok res => exact ⟨true, by simp [findMethodLoop, h]⟩
    | error e =>
      obtain ⟨b, hb⟩ := ih
      exact ⟨b, by simp [findMethodLoop, h, clauseFind_findClauses, hb]⟩

theorem findPkgLoop_isOk (o : FindOracle) (l : List String) :
    ∃ found, (findPkgLoop o l).result = .ok found := by
  induction l with
  | nil => exact ⟨[], rfl⟩
  | cons pkg rest ih =>
    obtain ⟨b, hb⟩ := findMethodLoop_isOk o pkg find_methods
    obtain ⟨found, hf⟩ := ih
    exact ⟨if b then pkg :: found else found, by simp [findPkgLoop, hb, hf]⟩

theorem list_available_apps_isOk (saEmail : String) (o : FindOracle) :
    ∃ v, (list_available_apps saEmail o).result = .ok v := by
  obtain ⟨found, hf⟩ := findPkgLoop_isOk o package_patterns
  cases found with
  | nil => exact ⟨none, by simp [list_available_apps, hf]⟩
  | cons f fs => exact ⟨some f, by simp [list_available_apps, hf]⟩

theorem test_example_package_isOk (o : Except PyErr Edit) :
    ∃ v, (test_example_package o).result = .ok v := by
  cases o with
  | ok ed => exact ⟨true, rfl⟩
  | error e =>
      exact ⟨(exampleHttpHandler e).2, by simp [test_example_package, clauseFind_exampleClauses]⟩

theorem pubStep_isOk (o : PubOracle) (pkg : String) :
    ∃ b, (pubStep o pkg).result = .ok b := by
  cases hl : o.listResp pkg with
  | error e => exact ⟨false, by simp [pubStep, pubTryBody, hl, clauseFind_pubClauses]⟩
  | ok payload =>
    cases payload with
    | none => exact ⟨false, by simp [pubStep, pubTryBody, hl]⟩
    | some l =>
      cases l with
      | nil => exact ⟨false, by simp [pubStep, pubTryBody, hl]⟩
      | cons ed tl =>
        cases hc : o.commitResp pkg ed.id with
        | error e => exact ⟨false, by simp [pubStep, pubTryBody, hl, hc, clauseFind_pubClauses]⟩
        | ok cr => exact ⟨true, by simp [pubStep, pubTryBody, hl, hc]⟩

theorem pubLoop_isOk (o : PubOracle) (l : List String) :
    ∃ b, (pubLoop o l).result = .ok b := by
  induction l with
  | nil => exact ⟨false, rfl⟩
  | cons q rest ih =>
    obtain ⟨b, hb⟩ := pubStep_isOk o q
    cases b with
    | true => exact ⟨true, by simp [pubLoop, hb]⟩
    | false =>
      obtain ⟨b2, hb2⟩ := ih
      exact ⟨b2, by simp [pubLoop, hb, hb2]⟩

theorem publish_existing_release_isOk (o : PubOracle) :
    ∃ b, (publish_existing_release o).result = .ok b :=
  pubLoop_isOk o package_names

/-- C7: for every sequence of remote-call responses, no error raised by a
remote probe call propagates out of `list_available_apps`,
`test_example_package` or `publish_existing_release`: every raised exception
is handled by an `except` clause and the function returns normally. -/
theorem claim_C7_no_error_propagates :
    ∀ (saEmail : String) (o₁ : FindOracle) (o₂ : Except PyErr Edit) (o₃ : PubOracle),
      (∃ v, (list_available_apps saEmail o₁).result = .ok v) ∧
      (∃ v, (test_example_package o₂).result = .ok v) ∧
      (∃ v, (publish_existing_release o₃).result = .ok v) := by
  intro saEmail o₁ o₂ o₃
  exact ⟨list_available_apps_isOk saEmail o₁, test_example_package_isOk o₂,
         publish_existing_release_isOk o₃⟩

/-- C5: when the credentials file is missing, `add_service_account.py`
reports the error, returns `False`, and issues no remote call at all,
whatever the remote service would have answered. -/
theorem claim_C5_missing_credentials_halts (o : Except PyErr String) :
    add_service_account_to_play_console false o =
      ⟨["Error: Credentials file not found at " ++ credentials_path], [], .ok false⟩ := rfl

/-! ## Commit-call analysis for publish_release.py -/

theorem pubTryBody_commit_mem (o : PubOracle) (q pkg eid : String)
    (h : Event.commit pkg eid ∈ (pubTryBody o q).events) :
    pkg = q ∧ ∃ ed tl, o.listResp q = .ok (some (ed :: tl)) ∧ ed.id = eid := by
  cases hl : o.listResp q with
  | error e => simp [pubTryBody, hl] at h
  | ok payload =>
    cases payload with
    | none => simp [pubTryBody, hl] at h
    | some l =>
      cases l with
      | nil => simp [pubTryBody, hl] at h
      | cons ed tl =>
        cases hc : o.commitResp q ed.id with
        | error e =>
          simp [pubTryBody, hl, hc] at h
          exact ⟨h.1, ed, tl, rfl, h.2.symm⟩
        | ok cr =>
          simp [pubTryBody, hl, hc] at h
          exact ⟨h.1, ed, tl, rfl, h.2.symm⟩

theorem pubStep_events_eq (o : PubOracle) (pkg : String) :
    (pubStep o pkg).events = (pubTryBody o pkg).events := by
  cases h : (pubTryBody o pkg).result with
  | ok b => simp [pubStep, h]
  | error e =>
    cases hc : clauseFind (pubClauses pkg) e with
    | some hls => simp [pubStep, h, hc]
    | none => simp [pubStep, h, hc]

theorem pubLoop_commit_mem (o : PubOracle) (l : List String) (pkg eid : String)
    (h : Event.commit pkg eid ∈ (pubLoop o l).events) :
    ∃ ed tl, o.listResp pkg = .ok (some (ed :: tl)) ∧ ed.id = eid := by
  induction l with
  | nil => simp [pubLoop] at h
  | cons q rest ih =>
    obtain ⟨b, hb⟩ := pubStep_isOk o q
    cases b with
    | true =>
      simp only [pubLoop, hb] at h
      rw [pubStep_events_eq] at h
      obtain ⟨hpq, hrest⟩ := pubTryBody_commit_mem o q pkg eid h
      subst hpq
      exact hrest
    | false =>
      simp only [pubLoop, hb] at h
      rw [pubStep_events_eq, List.mem_append] at h
      rcases h with h1 | h2
      · obtain ⟨hpq, hrest⟩ := pubTryBody_commit_mem o q pkg eid h1
        subst hpq
        exact hrest
      · exact ih h2

/-- C1: `publish_existing_release` issues a commit call for a package only
when that package's `edits().list()` call returned a response with a
non-empty edits collection, and the committed edit id is the `id` of the
first element of that collection. -/
theorem claim_C1_commit_only_first_edit (o : PubOracle) (pkg eid : String)
    (h : Event.commit pkg eid ∈ (publish_existing_release o).events) :
    ∃ ed tl, o.listResp pkg = .ok (some (ed :: tl)) ∧ ed.id = eid :=
  pubLoop_commit_mem o package_names pkg eid h

/-- Witness for C1 at a concrete oracle: the run on `pubOracleC1` does issue
a commit for the first candidate, and the theorem applies to it. -/
theorem claim_C1_witness :
    Event.commit "com.example.measurebowl" "edit-1" ∈ (publish_existing_release pubOracleC1).events ∧
    ∃ ed tl, pubOracleC1.listResp "com.example.measurebowl" = .ok (some (ed :: tl)) ∧
      ed.id = "edit-1" :=
  ⟨by decide,
   claim_C1_commit_only_first_edit pubOracleC1 "com.example.measurebowl" "edit-1" (by decide)⟩

/-! ## All-candidates-NotFound analysis -/

theorem testLoop_all404 (o : TestOracle) (l : List String)
    (h : ∀ q ∈ l, isNotFound404 (o q)) :
    testLoop o l =
      ⟨(l.map fun q => "❌ Package " ++ q ++ " not found") ++
        ["\n❌ None of the common variations were found.",
         "You" ++ sQuote ++ "ll need to check the exact package name in Google Play Console."],
       l.map (fun q => Event.call q mEditsInsert), .ok none⟩ := by
  induction l with
  | nil => rfl
  | cons q rest ih =>
    obtain ⟨msg, hmsg⟩ := h q (by simp)
    have hrest := ih (fun p hp => h p (by simp [hp]))
    simp [testLoop, hmsg, clauseFind_testClauses, testHttpHandler, hrest]

theorem findMethodLoop_all404 (o : FindOracle) (pkg : String) (ms : List String)
    (h : ∀ m ∈ ms, isNotFound404 (o pkg m)) :
    findMethodLoop o pkg ms =
      ⟨ms.map (fun m => "  ❌ " ++ m ++ ": Package not found"),
       ms.map (Event.call pkg), .ok false⟩ := by
  induction ms with
  | nil => rfl
  | cons m ms ih =>
    obtain ⟨msg, hmsg⟩ := h m (by simp)
    have hrest := ih (fun x hx => h x (by simp [hx]))
    simp [findMethodLoop, hmsg, clauseFind_findClauses, findHttpHandler, hrest]

theorem findPkgLoop_all404 (o : FindOracle) (l : List String)
    (h : ∀ q ∈ l, ∀ m ∈ find_methods, isNotFound404 (o q m)) :
    (findPkgLoop o l).result = .ok [] := by
  induction l with
  | nil => rfl
  | cons q rest ih =>
    have hq := findMethodLoop_all404 o q find_methods (h q (by simp))
    have hrest := ih (fun p hp => h p (by simp [hp]))
    simp [findPkgLoop, hq, hrest]

theorem pubStep_404_result (o : PubOracle) (q : String)
    (h : isNotFound404 (o.listResp q)) : (pubStep o q).result = .ok false := by
  obtain ⟨msg, hmsg⟩ := h
  simp [pubStep, pubTryBody, hmsg, clauseFind_pubClauses]

theorem pubLoop_all404_result (o : PubOracle) (l : List String)
    (h : ∀ q ∈ l, isNotFound404 (o.listResp q)) :
    (pubLoop o l).result = .ok false := by
  induction l with
  | nil => rfl
  | cons q rest ih =>
    have hstep := pubStep_404_result o q (h q (by simp))
    simp [pubLoop, hstep, ih (fun p hp => h p (by simp [hp]))]

theorem pubLoop_false_output (o : PubOracle) (l : List String)
    (h : (pubLoop o l).result = .ok false) :
    "\n❌ No existing releases found to publish" ∈ (pubLoop o l).output := by
  induction l with
  | nil => simp [pubLoop]
  | cons q rest ih =>
    obtain ⟨b, hb⟩ := pubStep_isOk o q
    cases b with
    | true => simp [pubLoop, hb] at h
    | false =>
      simp only [pubLoop, hb] at h ⊢
      exact List.mem_append.mpr (Or.inr (ih h))

/-- C4: when every candidate's probe answers NotFound (status 404), each of
the three probe functions prints its no-package-found message and returns
its falsy result (`None` for the two finders, `False` for the publisher),
never a package name. -/
theorem claim_C4_all_notfound_falsy :
    (∀ (saEmail : String) (o : FindOracle),
        (∀ q ∈ package_patterns, ∀ m ∈ find_methods, isNotFound404 (o q m)) →
        (list_available_apps saEmail o).result = .ok none ∧
        "\n❌ No accessible packages found" ∈ (list_available_apps saEmail o).output) ∧
    (∀ o : TestOracle, (∀ q ∈ package_variations, isNotFound404 (o q)) →
        (test_package_variations o).result = .ok none ∧
        "\n❌ None of the common variations were found." ∈ (test_package_variations o).output) ∧
    (∀ o : PubOracle, (∀ q ∈ package_names, isNotFound404 (o.listResp q)) →
        (publish_existing_release o).result = .ok false ∧
        "\n❌ No existing releases found to publish" ∈ (publish_existing_release o).output) := by
  refine ⟨?_, ?_, ?_⟩
  · intro saEmail o h
    have hfp := findPkgLoop_all404 o package_patterns h
    constructor
    · simp [list_available_apps, hfp]
    · simp [list_available_apps, hfp]
  · intro o h
    have ht := testLoop_all404 o package_variations h
    constructor
    · simp [test_package_variations, ht]
    · simp [test_package_variations, ht]
  · intro o h
    have hp := pubLoop_all404_result o package_names h
    exact ⟨hp, pubLoop_false_output o package_names hp⟩

/-- Witness for C4 at concrete all-NotFound oracles. -/
theorem claim_C4_witness :
    ((list_available_apps "svc@example.com" findOracle404).result = .ok none ∧
     "\n❌ No accessible packages found" ∈ (list_available_apps "svc@example.com" findOracle404).output) ∧
    ((test_package_variations testOracle404).result = .ok none ∧
     "\n❌ None of the common variations were found." ∈ (test_package_variations testOracle404).output) ∧
    ((publish_existing_release pubOracle404).result = .ok false ∧
     "\n❌ No existing releases found to publish" ∈ (publish_existing_release pubOracle404).output) :=
  ⟨claim_C4_all_notfound_falsy.1 "svc@example.com" findOracle404
      (fun _ _ _ _ => ⟨"nf", rfl⟩),
   claim_C4_all_notfound_falsy.2.1 testOracle404 (fun _ _ => ⟨"nf", rfl⟩),
   claim_C4_all_notfound_falsy.2.2 pubOracle404 (fun _ _ => ⟨"nf", rfl⟩)⟩

/-! ## First-success analysis -/

theorem testLoop_first_success (o : TestOracle) (l1 l2 : List String) (p : String) (ed : Edit)
    (h1 : ∀ q ∈ l1, isNotFound404 (o q)) (hp : o p = .ok ed) :
    (testLoop o (l1 ++ p :: l2)).result = .ok (some p) ∧
    (testLoop o (l1 ++ p :: l2)).events = (l1 ++ [p]).map (fun q => Event.call q mEditsInsert) := by
  induction l1 with
  | nil => constructor <;> simp [testLoop, hp]
  | cons q l1 ih =>
    obtain ⟨msg, hmsg⟩ := h1 q (by simp)
    obtain ⟨ihr, ihe⟩ := ih (fun x hx => h1 x (by simp [hx]))
    constructor
    · simp [testLoop, hmsg, clauseFind_testClauses, ihr]
    · simp [testLoop, hmsg, clauseFind_testClauses, ihe]

theorem findMethodLoop_success (o : FindOracle) (pkg : String) (ms1 ms2 : List String)
    (m res : String)
    (h1 : ∀ x ∈ ms1, isNotFound404 (o pkg x)) (hm : o pkg m = .ok res) :
    (findMethodLoop o pkg (ms1 ++ m :: ms2)).result = .ok true := by
  induction ms1 with
  | nil => simp [findMethodLoop, hm]
  | cons x xs ih =>
    obtain ⟨msg, hmsg⟩ := h1 x (by simp)
    simp [findMethodLoop, hmsg, clauseFind_findClauses,
          ih (fun y hy => h1 y (by simp [hy]))]

theorem findPkgLoop_one_success (o : FindOracle) (l1 l2 : List String) (p : String)
    (h1 : ∀ q ∈ l1 ++ l2, ∀ m ∈ find_methods, isNotFound404 (o q m))
    (hp : (findMethodLoop o p find_methods).result = .ok true) :
    (findPkgLoop o (l1 ++ p :: l2)).result = .ok [p] := by
  induction l1 with
  | nil =>
    have h2 := findPkgLoop_all404 o l2 (fun q hq => h1 q (by simp [hq]))
    simp [findPkgLoop, hp, h2]
  | cons q l1 ih =>
    have hq := findMethodLoop_all404 o q find_methods (h1 q (by simp))
    have hrest := ih (fun x hx => h1 x (List.mem_cons_of_mem q hx))
    simp [findPkgLoop, hq, hrest]

/-- C2: over any candidate list in which all candidates before position k
answer NotFound and the k-th candidate's probe succeeds (and, for the
find-all variant, all remaining candidates also answer NotFound), the
single-call probe loop of `test_package.py` stops at the k-th candidate and
returns its name, having probed exactly the first k candidates; the find-all
loop of `find_package.py` collects exactly that one name, and
`list_available_apps` returns it. -/
theorem claim_C2_first_success_stops :
    (∀ (o : TestOracle) (l1 l2 : List String) (p : String) (ed : Edit),
        (∀ q ∈ l1, isNotFound404 (o q)) → o p = .ok ed →
        (testLoop o (l1 ++ p :: l2)).result = .ok (some p) ∧
        (testLoop o (l1 ++ p :: l2)).events =
          (l1 ++ [p]).map (fun q => Event.call q mEditsInsert)) ∧
    (∀ (o : FindOracle) (l1 l2 ms1 ms2 : List String) (p m res : String),
        find_methods = ms1 ++ m :: ms2 →
        (∀ x ∈ ms1, isNotFound404 (o p x)) → o p m = .ok res →
        (∀ q ∈ l1 ++ l2, ∀ x ∈ find_methods, isNotFound404 (o q x)) →
        (findPkgLoop o (l1 ++ p :: l2)).result = .ok [p]) ∧
    (∀ (saEmail : String) (o : FindOracle) (l1 l2 ms1 ms2 : List String) (p m res : String),
        package_patterns = l1 ++ p :: l2 →
        find_methods = ms1 ++ m :: ms2 →
        (∀ x ∈ ms1, isNotFound404 (o p x)) → o p m = .ok res →
        (∀ q ∈ l1 ++ l2, ∀ x ∈ find_methods, isNotFound404 (o q x)) →
        (list_available_apps saEmail o).result = .ok (some p)) := by
  refine ⟨testLoop_first_success, ?_, ?_⟩
  · intro o l1 l2 ms1 ms2 p m res hsplit hms1 hm hall
    exact findPkgLoop_one_success o l1 l2 p hall
      (by rw [hsplit]; exact findMethodLoop_success o p ms1 ms2 m res hms1 hm)
  · intro saEmail o l1 l2 ms1 ms2 p m res hpats hsplit hms1 hm hall
    have hfp : (findPkgLoop o package_patterns).result = .ok [p] := by
      rw [hpats]
      exact findPkgLoop_one_success o l1 l2 p hall
        (by rw [hsplit]; exact findMethodLoop_success o p ms1 ms2 m res hms1 hm)
    simp [list_available_apps, hfp]

/-- Witness for C2 at concrete oracles: the second candidate of a two-element
list succeeds for the single-call probe, and the first candidate of
`package_patterns` succeeds on its first method for the find-all probe. -/
theorem claim_C2_witness :
    ((testLoop testOracleC2 ["com.measurebowl.app", "com.measurebowl"]).result =
        .ok (some "com.measurebowl") ∧
     (testLoop testOracleC2 ["com.measurebowl.app", "com.measurebowl"]).events =
        [Event.call "com.measurebowl.app" mEditsInsert,
         Event.call "com.measurebowl" mEditsInsert]) ∧
    (list_available_apps "svc@example.com" findOracleC2).result =
        .ok (some "com.example.measurebowl") :=
  ⟨claim_C2_first_success_stops.1 testOracleC2 ["com.measurebowl.app"] [] "com.measurebowl"
      ⟨"edit-7"⟩
      (by intro q hq; simp at hq; subst hq; exact ⟨"nf", by decide⟩)
      (by decide),
   claim_C2_first_success_stops.2.2 "svc@example.com" findOracleC2
      [] ["com.dojo.measurebowl", "com.measurebowl.app", "com.measurebowl",
          "com.lawnbowls.measurebowl", "com.julian.measurebowl",
          "com.gilbertroberts.measurebowl", "com.kickybreaks.measurebowl"]
      [] [mEditsInsert, mReviewsList] "com.example.measurebowl" mEditsList "resp"
      rfl rfl (by intro x hx; simp at hx)
      (by decide)
      (by
        intro q hq x hx
        fin_cases hq <;> fin_cases hx <;> exact ⟨"nf", by decide⟩)⟩

/-! ## Returned value comes from the candidate list -/

theorem testLoop_some_mem (o : TestOracle) (l : List String) (p : String)
    (h : (testLoop o l).result = .ok (some p)) : p ∈ l := by
  induction l with
  | nil => simp [testLoop] at h
  | cons q rest ih =>
    cases hq : o q with
    | ok ed =>
      have : q = p := by simpa [testLoop, hq] using h
      simp [this]
    | error e =>
      have : (testLoop o rest).result = .ok (some p) := by
        simpa [testLoop, hq, clauseFind_testClauses] using h
      exact List.mem_cons_of_mem q (ih this)

theorem findPkgLoop_found_subset (o : FindOracle) (l : List String) (found : List String)
    (h : (findPkgLoop o l).result = .ok found) : ∀ p ∈ found, p ∈ l := by
  induction l generalizing found with
  | nil =>
    have : found = [] := by simpa [findPkgLoop] using h.symm
    subst this
    simp
  | cons q rest ih =>
    obtain ⟨b, hb⟩ := findMethodLoop_isOk o q find_methods
    obtain ⟨fr, hfr⟩ := findPkgLoop_isOk o rest
    have hres : (findPkgLoop o (q :: rest)).result = .ok (if b then q :: fr else fr) := by
      simp [findPkgLoop, hb, hfr]
    rw [hres] at h
    cases b with
    | true =>
      have : q :: fr = found := by simpa using h
      subst this
      intro p hp
      rcases List.mem_cons.mp hp with rfl | hp
      · simp
      · exact List.mem_cons_of_mem q (ih fr hfr p hp)
    | false =>
      have : fr = found := by simpa using h
      subst this
      intro p hp
      exact List.mem_cons_of_mem q (ih fr hfr p hp)

/-- C10: whenever `list_available_apps` or `test_package_variations` returns
a package name (rather than `None`), that name is an element of the
script's hard-coded candidate list; no other string is ever returned. -/
theorem claim_C10_result_in_candidates :
    (∀ (saEmail : String) (o : FindOracle) (p : String),
        (list_available_apps saEmail o).result = .ok (some p) → p ∈ package_patterns) ∧
    (∀ (o : TestOracle) (p : String),
        (test_package_variations o).result = .ok (some p) → p ∈ package_variations) := by
  constructor
  · intro saEmail o p h
    obtain ⟨found, hf⟩ := findPkgLoop_isOk o package_patterns
    cases found with
    | nil => simp [list_available_apps, hf] at h
    | cons f fs =>
      have : f = p := by simpa [list_available_apps, hf] using h
      subst this
      exact findPkgLoop_found_subset o package_patterns (f :: fs) hf f (by simp)
  · intro o p h
    have : (testLoop o package_variations).result = .ok (some p) := by
      simpa [test_package_variations] using h
    exact testLoop_some_mem o package_variations p this

/-- Witness for C10 at concrete oracles that do return a name. -/
theorem claim_C10_witness :
    "com.example.measurebowl" ∈ package_patterns ∧ "com.measurebowl" ∈ package_variations :=
  ⟨claim_C10_result_in_candidates.1 "svc@example.com" findOracleC2 "com.example.measurebowl"
     (by decide),
   claim_C10_result_in_candidates.2 testOracleC2 "com.measurebowl" (by decide)⟩

/-! ## Determinism of the find-package probe -/

theorem findMethodLoop_congr (o₁ o₂ : FindOracle) (pkg : String) (ms : List String)
    (h : ∀ m ∈ ms, o₁ pkg m = o₂ pkg m) :
    findMethodLoop o₁ pkg ms = findMethodLoop o₂ pkg ms := by
  induction ms with
  | nil => rfl
  | cons m ms ih =>
    have hm := h m (by simp)
    have ihr := ih (fun x hx => h x (by simp [hx]))
    cases h2 : o₂ pkg m with
    | ok res => simp [findMethodLoop, hm, h2]
    | error e => simp [findMethodLoop, hm, h2, ihr]

theorem findPkgLoop_congr (o₁ o₂ : FindOracle) (l : List String)
    (h : ∀ p ∈ l, ∀ m ∈ find_methods, o₁ p m = o₂ p m) :
    findPkgLoop o₁ l = findPkgLoop o₂ l := by
  induction l with
  | nil => rfl
  | cons q rest ih =>
    have hq := findMethodLoop_congr o₁ o₂ q find_methods (h q (by simp))
    have ihr := ih (fun p hp => h p (by simp [hp]))
    simp [findPkgLoop, hq, ihr]

/-- C9: `list_available_apps` is deterministic in the remote responses: two
runs whose oracles agree on every candidate and probe method produce the
same printed output, the same call trace and the same returned value. -/
theorem claim_C9_deterministic (saEmail : String) (o₁ o₂ : FindOracle)
    (h : ∀ p ∈ package_patterns, ∀ m ∈ find_methods, o₁ p m = o₂ p m) :
    list_available_apps saEmail o₁ = list_available_apps saEmail o₂ := by
  have hl := findPkgLoop_congr o₁ o₂ package_patterns h
  simp [list_available_apps, hl]

/-- Witness for C9: two oracles that agree on all candidates (but differ on
an unrelated package name) give identical runs. -/
theorem claim_C9_witness :
    list_available_apps "svc@example.com" findOracle404 =
      list_available_apps "svc@example.com" findOracleC9 :=
  claim_C9_deterministic "svc@example.com" findOracle404 findOracleC9 (by decide)

/-! ## The 403 behaviour -/

/-- C3 counterexample: on `findOracleC3` the first candidate's first probe
returns 403, yet `list_available_apps` still attempts the candidate's next
probe method and never prints the remediation sequence, contradicting the
claim that a 403 prints the remediation steps and stops that candidate's
method loop. -/
theorem claim_C3_counterexample :
    findOracleC3 "com.example.measurebowl" mEditsList = .error (.httpError 403 "forbidden") ∧
    Event.call "com.example.measurebowl" mEditsInsert ∈
      (list_available_apps "svc@example.com" findOracleC3).events ∧
    "1. Go to https://play.google.com/console/" ∉
      (list_available_apps "svc@example.com" findOracleC3).output := by
  decide

/-- C3 amended: only `add_service_account.py` prints the fixed remediation
sequence on a 403, and it then stops (returns `False` after its single
probe); in `find_package.py` a 403 prints a warning line for that method
and the method loop continues with the candidate's remaining methods. -/
theorem claim_C3_remediation_amended :
    (∀ msg : String,
        add_service_account_to_play_console true (.error (.httpError 403 msg)) =
          ⟨["Attempting to add service account: " ++ sa_email,
            "To package: " ++ dojo_package,
            "\nTesting service account access..."] ++ remediationLines,
           [.call dojo_package mEditsGet], .ok false⟩) ∧
    (∀ (o : FindOracle) (pkg m msg : String) (ms : List String) (s : Nat),
        s ≠ 404 → o pkg m = .error (.httpError s msg) →
        findMethodLoop o pkg (m :: ms) =
          ⟨("  ⚠️  " ++ m ++ ": " ++ msg) :: (findMethodLoop o pkg ms).output,
           Event.call pkg m :: (findMethodLoop o pkg ms).events,
           (findMethodLoop o pkg ms).result⟩) := by
  constructor
  · intro msg
    simp [add_service_account_to_play_console, clauseFind_addInner_http, addHttpHandler]
  · intro o pkg m msg ms s hs hm
    simp [findMethodLoop, hm, clauseFind_findClauses, findHttpHandler, hs]

/-- Witness for the amended C3 at status 403 on concrete inputs. -/
theorem claim_C3_amended_witness :
    add_service_account_to_play_console true (.error (.httpError 403 "forbidden")) =
      ⟨["Attempting to add service account: " ++ sa_email,
        "To package: " ++ dojo_package,
        "\nTesting service account access..."] ++ remediationLines,
       [.call dojo_package mEditsGet], .ok false⟩ ∧
    findMethodLoop findOracleC3 "com.example.measurebowl" [mEditsList, mEditsInsert, mReviewsList] =
      ⟨("  ⚠️  " ++ mEditsList ++ ": " ++ "forbidden") ::
         (findMethodLoop findOracleC3 "com.example.measurebowl" [mEditsInsert, mReviewsList]).output,
       Event.call "com.example.measurebowl" mEditsList ::
         (findMethodLoop findOracleC3 "com.example.measurebowl" [mEditsInsert, mReviewsList]).events,
       (findMethodLoop findOracleC3 "com.example.measurebowl" [mEditsInsert, mReviewsList]).result⟩ :=
  ⟨claim_C3_remediation_amended.1 "forbidden",
   claim_C3_remediation_amended.2 findOracleC3 "com.example.measurebowl" mEditsList "forbidden"
     [mEditsInsert, mReviewsList] 403 (by decide) (by decide)⟩

/-! ## Commit terminality analysis -/

theorem pubStep_true_shape (o : PubOracle) (q : String)
    (h : (pubStep o q).result = .ok true) :
    ∃ ed tl cr, o.listResp q = .ok (some (ed :: tl)) ∧ o.commitResp q ed.id = .ok cr ∧
      (pubStep o q).events = [Event.call q mEditsList, Event.commit q ed.id] := by
  cases hl : o.listResp q with
  | error e => simp [pubStep, pubTryBody, hl, clauseFind_pubClauses] at h
  | ok payload =>
    cases payload with
    | none => simp [pubStep, pubTryBody, hl] at h
    | some l =>
      cases l with
      | nil => simp [pubStep, pubTryBody, hl] at h
      | cons ed tl =>
        cases hc : o.commitResp q ed.id with
        | error e => simp [pubStep, pubTryBody, hl, hc, clauseFind_pubClauses] at h
        | ok cr =>
          exact ⟨ed, tl, cr, rfl, hc, by simp [pubStep, pubTryBody, hl, hc]⟩

theorem pubStep_commit_ok_imp_true (o : PubOracle) (q pkg eid cr : String)
    (hmem : Event.commit pkg eid ∈ (pubStep o q).events)
    (hok : o.commitResp pkg eid = .ok cr) :
    (pubStep o q).result = .ok true := by
  rw [pubStep_events_eq] at hmem
  obtain ⟨hpq, ed, tl, hl, hid⟩ := pubTryBody_commit_mem o q pkg eid hmem
  subst hpq
  subst hid
  simp [pubStep, pubTryBody, hl, hok]

theorem pubTryBody_events_shape (o : PubOracle) (q : String) :
    (pubTryBody o q).events = [Event.call q mEditsList] ∨
    ∃ ed : Edit, (pubTryBody o q).events = [Event.call q mEditsList, Event.commit q ed.id] := by
  cases hl : o.listResp q with
  | error e => exact Or.inl (by simp [pubTryBody, hl])
  | ok payload =>
    cases payload with
    | none => exact Or.inl (by simp [pubTryBody, hl])
    | some l =>
      cases l with
      | nil => exact Or.inl (by simp [pubTryBody, hl])
      | cons ed tl =>
        cases hc : o.commitResp q ed.id with
        | error e => exact Or.inr ⟨ed, by simp [pubTryBody, hl, hc]⟩
        | ok cr => exact Or.inr ⟨ed, by simp [pubTryBody, hl, hc]⟩

/-- Occurrence count of a package name in a candidate list. -/
def occCount (pkg : String) : List String → Nat
  | [] => 0
  | q :: rest => (if q = pkg then 1 else 0) + occCount pkg rest

theorem occCount_eq_zero (pkg : String) (l : List String) (h : pkg ∉ l) :
    occCount pkg l = 0 := by
  induction l with
  | nil => rfl
  | cons q rest ih =>
    have hq : q ≠ pkg := fun he => h (by simp [he])
    have hr : pkg ∉ rest := fun hm => h (List.mem_cons_of_mem q hm)
    simp [occCount, hq, ih hr]

theorem occCount_le_one (pkg : String) (l : List String) (h : l.Nodup) :
    occCount pkg l ≤ 1 := by
  induction l with
  | nil => simp [occCount]
  | cons q rest ih =>
    rw [List.nodup_cons] at h
    by_cases hq : q = pkg
    · subst hq
      simp [occCount, occCount_eq_zero q rest h.1]
    · simp [occCount, hq, ih h.2]

theorem pubStep_commit_count (o : PubOracle) (q pkg : String) :
    ((pubStep o q).events.countP (isCommitFor pkg)) ≤ if q = pkg then 1 else 0 := by
  rw [pubStep_events_eq]
  rcases pubTryBody_events_shape o q with h | ⟨ed, h⟩ <;> rw [h] <;>
    by_cases hqp : q = pkg <;>
    simp [List.countP_cons, isCommitFor, hqp, beq_iff_eq]

theorem pubLoop_commit_count (o : PubOracle) (l : List String) (pkg : String) :
    ((pubLoop o l).events.countP (isCommitFor pkg)) ≤ occCount pkg l := by
  induction l with
  | nil => simp [pubLoop, occCount]
  | cons q rest ih =>
    obtain ⟨b, hb⟩ := pubStep_isOk o q
    have hstep := pubStep_commit_count o q pkg
    cases b with
    | true =>
      have hev : (pubLoop o (q :: rest)).events = (pubStep o q).events := by
        simp [pubLoop, hb]
      rw [hev]
      refine le_trans hstep ?_
      simp [occCount]
    | false =>
      have hev : (pubLoop o (q :: rest)).events =
          (pubStep o q).events ++ (pubLoop o rest).events := by
        simp [pubLoop, hb]
      rw [hev, List.countP_append]
      have := add_le_add hstep ih
      refine le_trans this ?_
      simp [occCount]

theorem pubLoop_commit_ok_terminal (o : PubOracle) (l : List String) (pkg eid cr : String)
    (hok : o.commitResp pkg eid = .ok cr)
    (hmem : Event.commit pkg eid ∈ (pubLoop o l).events) :
    (pubLoop o l).result = .ok true ∧
    (pubLoop o l).events.getLast? = some (.commit pkg eid) := by
  induction l with
  | nil => simp [pubLoop] at hmem
  | cons q rest ih =>
    obtain ⟨b, hb⟩ := pubStep_isOk o q
    cases b with
    | true =>
      obtain ⟨ed, tl, cr2, hl, hc, hevs⟩ := pubStep_true_shape o q hb
      have hev : (pubLoop o (q :: rest)).events =
          [Event.call q mEditsList, Event.commit q ed.id] := by
        simp [pubLoop, hb, hevs]
      rw [hev] at hmem
      have hpe : pkg = q ∧ eid = ed.id := by simpa using hmem
      obtain ⟨h1, h2⟩ := hpe
      subst h1
      subst h2
      constructor
      · simp [pubLoop, hb]
      · rw [hev]; rfl
    | false =>
      have hev : (pubLoop o (q :: rest)).events =
          (pubStep o q).events ++ (pubLoop o rest).events := by
        simp [pubLoop, hb]
      have hres : (pubLoop o (q :: rest)).result = (pubLoop o rest).result := by
        simp [pubLoop, hb]
      rw [hev] at hmem
      rcases List.mem_append.mp hmem with h1 | h2
      · have := pubStep_commit_ok_imp_true o q pkg eid cr h1 hok
        rw [hb] at this
        simp at this
      · obtain ⟨ihr, ihl⟩ := ih h2
        refine ⟨by rw [hres]; exact ihr, ?_⟩
        rw [hev, List.getLast?_append_of_ne_nil _ (List.ne_nil_of_mem h2)]
        exact ihl

/-- C6 counterexample: on `pubOracleC6` the first candidate's commit call is
issued and fails, yet the run goes on to probe the four remaining
candidates (four further remote calls after the first commit call),
contradicting the claim that any commit call ends the run. -/
theorem claim_C6_counterexample :
    Event.commit "com.example.measurebowl" "edit-1" ∈
      (publish_existing_release pubOracleC6).events ∧
    eventsAfterFirstCommit (publish_existing_release pubOracleC6).events = 4 := by
  decide

/-- C6 amended: a successful commit is terminal — the run returns `True`
and the successful commit call is the last remote call of the trace — and
no candidate's commit is ever issued twice (in particular a failed commit
is not retried); but after a failed commit the run continues with the
remaining candidates instead of stopping. -/
theorem claim_C6_commit_terminal_amended (o : PubOracle) :
    (∀ pkg, ((publish_existing_release o).events.countP (isCommitFor pkg)) ≤ 1) ∧
    (∀ pkg eid cr, o.commitResp pkg eid = .ok cr →
        Event.commit pkg eid ∈ (publish_existing_release o).events →
        (publish_existing_release o).result = .ok true ∧
        (publish_existing_release o).events.getLast? = some (.commit pkg eid)) := by
  constructor
  · intro pkg
    refine le_trans (pubLoop_commit_count o package_names pkg) ?_
    exact occCount_le_one pkg package_names (by decide)
  · intro pkg eid cr hok hmem
    exact pubLoop_commit_ok_terminal o package_names pkg eid cr hok hmem

/-- Witness for the amended C6: on `pubOracleC1` the first candidate's
commit succeeds, the run returns `True` and the commit is the final call. -/
theorem claim_C6_amended_witness :
    (publish_existing_release pubOracleC1).result = .ok true ∧
    (publish_existing_release pubOracleC1).events.getLast? =
      some (Event.commit "com.example.measurebowl" "edit-1") :=
  (claim_C6_commit_terminal_amended pubOracleC1).2 "com.example.measurebowl" "edit-1"
    "committed" (by decide) (by decide)

/-! ## Trace structure of the find-package probe -/

theorem findMethodLoop_events_tried (o : FindOracle) (pkg : String) (ms : List String) :
    (findMethodLoop o pkg ms).events = (triedMethods o pkg ms).map (Event.call pkg) := by
  induction ms with
  | nil => rfl
  | cons m ms ih =>
    cases h : o pkg m with
    | ok res => simp [findMethodLoop, triedMethods, h]
    | error e => simp [findMethodLoop, triedMethods, h, clauseFind_findClauses, ih]

theorem triedMethods_prefix (o : FindOracle) (pkg : String) (ms : List String) :
    ∃ t, triedMethods o pkg ms ++ t = ms := by
  induction ms with
  | nil => exact ⟨[], rfl⟩
  | cons m ms ih =>
    cases h : o pkg m with
    | ok res => exact ⟨ms, by simp [triedMethods, h]⟩
    | error e =>
      obtain ⟨t, ht⟩ := ih
      exact ⟨t, by simp [triedMethods, h, ht]⟩

theorem triedMethods_ne_nil (o : FindOracle) (pkg m : String) (ms : List String) :
    triedMethods o pkg (m :: ms) ≠ [] := by
  cases h : o pkg m <;> simp [triedMethods, h]

theorem findPkgLoop_events_blocks (o : FindOracle) (l : List String) :
    (findPkgLoop o l).events = eventsOfBlocks o l := by
  induction l with
  | nil => rfl
  | cons q rest ih =>
    obtain ⟨b, hb⟩ := findMethodLoop_isOk o q find_methods
    simp [findPkgLoop, hb, eventsOfBlocks, findMethodLoop_events_tried, ih]

theorem eventsOfBlocks_mem (o : FindOracle) (l : List String) (ev : Event)
    (h : ev ∈ eventsOfBlocks o l) : ∃ q ∈ l, ∃ m, ev = Event.call q m := by
  induction l with
  | nil => simp [eventsOfBlocks] at h
  | cons q rest ih =>
    have h' : (∃ a ∈ triedMethods o q find_methods, Event.call q a = ev) ∨
        ev ∈ eventsOfBlocks o rest := by simpa [eventsOfBlocks] using h
    rcases h' with ⟨m, hm, hev⟩ | h2
    · exact ⟨q, by simp, m, hev.symm⟩
    · obtain ⟨p, hp, m, hm⟩ := ih h2
      exact ⟨p, List.mem_cons_of_mem q hp, m, hm⟩

theorem eventsOfBlocks_nodup (o : FindOracle) (l : List String) (hl : l.Nodup) :
    (eventsOfBlocks o l).Nodup := by
  induction l with
  | nil => simp [eventsOfBlocks]
  | cons q rest ih =>
    rw [List.nodup_cons] at hl
    refine List.Nodup.append ?_ (ih hl.2) ?_
    · refine List.Nodup.map ?_ ?_
      · intro a b hab
        injection hab
      · obtain ⟨t, ht⟩ := triedMethods_prefix o q find_methods
        have hsub : (triedMethods o q find_methods).Sublist find_methods := by
          conv_rhs => rw [← ht]
          exact List.sublist_append_left _ _
        exact hsub.nodup (by decide)
    · intro ev hev1 hev2
      obtain ⟨m, hm, hev⟩ := List.mem_map.mp hev1
      obtain ⟨p, hp, m2, hev2eq⟩ := eventsOfBlocks_mem o rest ev hev2
      rw [← hev] at hev2eq
      injection hev2eq with hq hm2
      exact hl.1 (hq ▸ hp)

theorem list_available_apps_events (saEmail : String) (o : FindOracle) :
    (list_available_apps saEmail o).events = (findPkgLoop o package_patterns).events := by
  obtain ⟨found, hf⟩ := findPkgLoop_isOk o package_patterns
  cases found with
  | nil => simp [list_available_apps, hf]
  | cons f fs => simp [list_available_apps, hf]

/-- C8: in every run of `list_available_apps` the trace of probe calls is
one contiguous block per candidate, laid out in the literal order of
`package_patterns` with no candidate revisited, each block being a
non-empty prefix of the method list; consequently no probe call (candidate,
method pair) is ever repeated — the whole trace has no duplicate. -/
theorem claim_C8_candidates_in_order (saEmail : String) (o : FindOracle) :
    (list_available_apps saEmail o).events = eventsOfBlocks o package_patterns ∧
    (∀ p, triedMethods o p find_methods ≠ [] ∧
          ∃ t, triedMethods o p find_methods ++ t = find_methods) ∧
    (list_available_apps saEmail o).events.Nodup := by
  have he : (list_available_apps saEmail o).events = eventsOfBlocks o package_patterns := by
    rw [list_available_apps_events, findPkgLoop_events_blocks]
  refine ⟨he, ?_, ?_⟩
  · intro p
    exact ⟨triedMethods_ne_nil o p mEditsList [mEditsInsert, mReviewsList],
           triedMethods_prefix o p find_methods⟩
  · rw [he]
    exact eventsOfBlocks_nodup o package_patterns (by decide)
